import Mathlib

/-!
Shallow embedding of the AHYTE repository's configuration loader
(`src/config.py`) and market-data pipeline initialization
(`src/data_pipeline.py`), with theorems settling the spec claims.

JSON-like values are modelled by an inductive `Value`; Python `dict`s by
association lists with Python's update-in-place semantics; the process
environment by an association list from variable names to strings.
Fallible Python code is modelled with `Except`/`Option`.
-/

set_option autoImplicit false

namespace AHYTE

/-- A JSON-like configuration value, as produced by `json.load` and stored in
`AHYTEConfig._config`. Python `None` is `vNull`; numbers are modelled exactly
as rationals. -/
inductive Value where
  | vNull
  | vNum (q : ℚ)
  | vStr (s : String)
  | vList (xs : List Value)
  | vDict (d : List (String × Value))

/-- Boolean equality on `Value`, by structural recursion (nested through the
list arguments of `vList` and `vDict`). -/
def Value.beq : Value → Value → Bool
  | .vNull, .vNull => true
  | .vNum a, .vNum b => decide (a = b)
  | .vStr a, .vStr b => decide (a = b)
  | .vList as, .vList bs =>
      match as, bs with
      | [], [] => true
      | a :: as2, b :: bs2 => Value.beq a b && Value.beq (.vList as2) (.vList bs2)
      | _, _ => false
  | .vDict ds, .vDict es =>
      match ds, es with
      | [], [] => true
      | (k, v) :: ds2, (l, w) :: es2 =>
          decide (k = l) && Value.beq v w && Value.beq (.vDict ds2) (.vDict es2)
      | _, _ => false
  | _, _ => false

theorem Value.beq_iff : ∀ a b : Value, Value.beq a b = true ↔ a = b := by
  intro a b
  induction a, b using Value.beq.induct
  case case1 => simp [Value.beq]
  case case2 => simp [Value.beq]
  case case3 => simp [Value.beq]
  case case4 => simp [Value.beq]
  case case5 a as2 b bs2 ih1 ih2 => simp_all [Value.beq]
  case case6 as bs h0 hne =>
    constructor
    · intro hbeq
      exfalso
      cases as with
      | nil =>
        cases bs with
        | nil => exact h0 rfl rfl
        | cons b bs2 => simp [Value.beq] at hbeq
      | cons a as2 =>
        cases bs with
        | nil => simp [Value.beq] at hbeq
        | cons b bs2 => exact hne a as2 b bs2 rfl rfl
    · intro heq
      exfalso
      cases heq
      cases as with
      | nil => exact h0 rfl rfl
      | cons a as2 => exact hne a as2 a as2 rfl rfl
  case case7 => simp [Value.beq]
  case case8 k v ds2 l w es2 ih1 ih2 => simp_all [Value.beq]
  case case9 ds es h0 hne =>
    constructor
    · intro hbeq
      exfalso
      cases ds with
      | nil =>
        cases es with
        | nil => exact h0 rfl rfl
        | cons e es2 => simp [Value.beq] at hbeq
      | cons d ds2 =>
        cases es with
        | nil => simp [Value.beq] at hbeq
        | cons e es2 => exact hne d.1 d.2 ds2 e.1 e.2 es2 (by simp) (by simp)
    · intro heq
      exfalso
      cases heq
      cases ds with
      | nil => exact h0 rfl rfl
      | cons d ds2 => exact hne d.1 d.2 ds2 d.1 d.2 ds2 (by simp) (by simp)
  case case10 x y h1 h2 h3 h4 h5 =>
    constructor
    · intro hbeq
      exfalso
      cases x <;> cases y <;> simp_all [Value.beq]
    · intro heq
      exfalso
      cases heq
      cases x with
      | vNull => exact h1 rfl rfl
      | vNum q => exact h2 q q rfl rfl
      | vStr s => exact h3 s s rfl rfl
      | vList as => exact h4 as as rfl rfl
      | vDict ds => exact h5 ds ds rfl rfl

instance : DecidableEq Value := fun a b => decidable_of_iff _ (Value.beq_iff a b)

/-- A Python `dict` with string keys, in insertion order. -/
abbrev Dict := List (String × Value)

/-- Python `d[k]` lookup (first matching key). -/
def dictLookup : Dict → String → Option Value
  | [], _ => none
  | (k', v) :: rest, k => if k' = k then some v else dictLookup rest k

/-- Python `d[k] = v`: replace the value at an existing key in place,
otherwise append the new binding at the end. -/
def dictSet : Dict → String → Value → Dict
  | [], k, v => [(k, v)]
  | (k', v') :: rest, k, v =>
      if k' = k then (k, v) :: rest else (k', v') :: dictSet rest k v

/-- Python `{**a, **b}`: start from `a` and write every binding of `b` over it,
in order. This is the top-level merge performed by `load_config`
(src/config.py:61). -/
def dictMerge (a b : Dict) : Dict :=
  b.foldl (fun acc p => dictSet acc p.1 p.2) a

/-- The `"trading"` section of `AHYTEConfig._defaults` (src/config.py:29-33). -/
def tradingDefaults : Dict :=
  [("max_position_size", .vNum (1/10)),
   ("default_timeframe", .vStr "1h"),
   ("supported_exchanges", .vList [.vStr "binance", .vStr "coinbase", .vStr "kraken"])]

/-- The `"risk"` section of `AHYTEConfig._defaults` (src/config.py:34-38). -/
def riskDefaults : Dict :=
  [("max_drawdown", .vNum (1/4)),
   ("volatility_threshold", .vNum (1/50)),
   ("minimum_win_rate", .vNum (9/20))]

/-- The `"learning"` section of `AHYTEConfig._defaults` (src/config.py:39-43). -/
def learningDefaults : Dict :=
  [("retrain_interval_hours", .vNum 24),
   ("minimum_samples", .vNum 100),
   ("validation_split", .vNum (1/5))]

/-- The `"firebase"` section of `AHYTEConfig._defaults` (src/config.py:44-49). -/
def firebaseDefaults : Dict :=
  [("collection_traders", .vStr "traders"),
   ("collection_strategies", .vStr "strategies"),
   ("collection_trades", .vStr "trades"),
   ("collection_market_data", .vStr "market_data")]

/-- `AHYTEConfig._defaults` (src/config.py:28-50). -/
def defaults : Dict :=
  [("trading", .vDict tradingDefaults),
   ("risk", .vDict riskDefaults),
   ("learning", .vDict learningDefaults),
   ("firebase", .vDict firebaseDefaults)]

/-- `AHYTEConfig.get(*keys, default=...)` (src/config.py:130-138): walk the
nested mapping by the key sequence; return `default` as soon as the current
value is not a dict or the key is absent. -/
def get (current : Value) (keys : List String) (default : Value) : Value :=
  match keys with
  | [] => current
  | k :: ks =>
      match current with
      | .vDict d =>
          match dictLookup d k with
          | some v => get v ks default
          | none => default
      | _ => default

/-- The process environment `os.environ`, as a finite map from variable names
to string values. -/
abbrev Env := List (String × String)

/-- `os.environ[v]` / the `v in os.environ` test (first matching entry). -/
def envLookup : Env → String → Option String
  | [], _ => none
  | (k', v) :: rest, k => if k' = k then some v else envLookup rest k

/-- The numeric value of a decimal digit character, `none` on any other
character. -/
def digitVal (c : Char) : Option Nat :=
  if c.isDigit then some (c.toNat - 48) else none

/-- Read a digit string left to right into an accumulator; `none` on the
first non-digit. -/
def digitsCore : List Char → Nat → Option Nat
  | [], acc => some acc
  | c :: cs, acc =>
      match digitVal c with
      | some d => digitsCore cs (acc * 10 + d)
      | none => none

/-- Parse a non-empty digit string. -/
def parseDigits (cs : List Char) : Option Nat :=
  if cs.isEmpty then none else digitsCore cs 0

/-- Split at the first `.`: the characters before it, and those after it when
a dot is present. -/
def splitDot : List Char → List Char × Option (List Char)
  | [] => ([], none)
  | c :: cs =>
      if c = '.' then ([], some cs)
      else
        let r := splitDot cs
        (c :: r.1, r.2)

/-- Modelled from the spec: Python's builtin `float` coercion is external to
the repository; per the spec it is a type-coercion function that either
yields the number or fails. It is modelled as an exact parser of
optional-sign decimal literals, `none` where Python raises `ValueError`. -/
def pyFloatCore (t : List Char) : Option ℚ :=
  match splitDot t with
  | (w, none) => (parseDigits w).map (fun n => (n : ℚ))
  | (w, some f) =>
      if w.isEmpty && f.isEmpty then none
      else
        match (if w.isEmpty then some 0 else parseDigits w),
              (if f.isEmpty then some 0 else parseDigits f) with
        | some wn, some fn => some ((wn : ℚ) + (fn : ℚ) / ((10 : ℚ) ^ f.length))
        | _, _ => none

/-- Modelled from the spec: Python `float(s)`, see `pyFloatCore`. -/
def pyFloat (s : String) : Option ℚ :=
  match s.toList with
  | '-' :: rest => (pyFloatCore rest).map Neg.neg
  | cs => pyFloatCore cs

/-- The `type_cast` column of `env_mappings` (src/config.py:79-83): `float`
for the two numeric limits, `str` for the project id. -/
inductive Coercion where
  | toFloat
  | toStr
  deriving DecidableEq

/-- Apply a coercion function to the raw environment string; `none` models a
raised `ValueError`. -/
def applyCoercion : Coercion → String → Option Value
  | .toFloat, s => (pyFloat s).map Value.vNum
  | .toStr, s => some (.vStr s)

/-- One row of the `env_mappings` table: environment variable name, config
section, key, and coercion function (src/config.py:79-83). -/
structure EnvMapping where
  var : String
  sec : String
  key : String
  cast : Coercion
  deriving DecidableEq

/-- Row 1 of `env_mappings` (src/config.py:80). -/
def em1 : EnvMapping := ⟨"AHYTE_MAX_POSITION_SIZE", "trading", "max_position_size", .toFloat⟩

/-- Row 2 of `env_mappings` (src/config.py:81). -/
def em2 : EnvMapping := ⟨"AHYTE_MAX_DRAWDOWN", "risk", "max_drawdown", .toFloat⟩

/-- Row 3 of `env_mappings` (src/config.py:82). -/
def em3 : EnvMapping := ⟨"FIREBASE_PROJECT_ID", "firebase", "project_id", .toStr⟩

/-- The `env_mappings` table of `_override_from_env` (src/config.py:79-83). -/
def envMappings : List EnvMapping := [em1, em2, em3]

/-- One iteration of the `_override_from_env` loop (src/config.py:85-91).
Python evaluates `type_cast(os.environ[env_var])` first (`ValueError` is
caught and the variable skipped), then `self._config[section]` (`KeyError`
is caught and the variable skipped), then performs the item assignment,
which raises an uncaught `TypeError` when the section value is not a dict
(`.error ()`). -/
def envStep (env : Env) (c : Dict) (m : EnvMapping) : Except Unit Dict :=
  match envLookup env m.var with
  | none => .ok c
  | some raw =>
      match applyCoercion m.cast raw with
      | none => .ok c
      | some v =>
          match dictLookup c m.sec with
          | none => .ok c
          | some (.vDict d) => .ok (dictSet c m.sec (.vDict (dictSet d m.key v)))
          | some _ => .error ()

/-- `AHYTEConfig._override_from_env` (src/config.py:77-91): fold the
`env_mappings` table over the configuration; an uncaught `TypeError`
aborts the remaining iterations. -/
def overrideFromEnv (env : Env) (c : Dict) : Except Unit Dict :=
  envMappings.foldl (fun acc m => acc.bind (fun cc => envStep env cc m)) (.ok c)

/-- The outcome of reading the configuration file: the path was given and the
file exists, holding either malformed text (`invalid`, `json.JSONDecodeError`),
a JSON object (`jdict`), or some other valid JSON document (`jother`). A
missing or omitted path is `none` at use sites. -/
inductive FileDoc where
  | invalid
  | jdict (d : Dict)
  | jother (v : Value)

/-- The errors `load_config` can propagate: `parseError` is
`json.JSONDecodeError`; `typeError` is an uncaught `TypeError` from merging a
non-object document or assigning into a non-dict section. -/
inductive LoadError where
  | parseError
  | typeError
  deriving DecidableEq

/-- The file-reading and merging stage of `load_config` (src/config.py:58-65),
before `_override_from_env` runs: a missing or omitted path yields the
defaults; a malformed file propagates the parse error; an object document is
merged over the defaults with `{**self._defaults, **file_config}`; a
non-object document makes that merge raise `TypeError`. -/
def parseStage : Option FileDoc → Except LoadError Dict
  | none => .ok defaults
  | some .invalid => .error .parseError
  | some (.jdict d) => .ok (dictMerge defaults d)
  | some (.jother _) => .error .typeError

/-- `AHYTEConfig.load_config` (src/config.py:55-75): read and merge the file,
then apply environment overrides; every error is logged and re-raised. -/
def load_config (file : Option FileDoc) (env : Env) : Except LoadError Dict :=
  match parseStage file with
  | .error e => .error e
  | .ok c =>
      match overrideFromEnv env c with
      | .ok c2 => .ok c2
      | .error _ => .error .typeError

/-- The three credential sources of `initialize_firebase`
(src/config.py:98-107). -/
inductive CredSource where
  | inlineEnv
  | fileKey
  | applicationDefault
  deriving DecidableEq

/-- The credential-selection chain of `initialize_firebase`
(src/config.py:98-107): the inline `FIREBASE_SERVICE_ACCOUNT` document wins,
then the `serviceAccountKey.json` file, then application-default
credentials. -/
def chooseCred (env : Env) (keyFileExists : Bool) : CredSource :=
  if (envLookup env "FIREBASE_SERVICE_ACCOUNT").isSome then .inlineEnv
  else if keyFileExists then .fileKey
  else .applicationDefault

/-- Credential acquisition in `initialize_firebase` (src/config.py:97-110):
the chain runs only when no Firebase app is initialized yet
(`firebase_admin._apps` empty); otherwise no credential is acquired. -/
def acquireCred (appsInitialized : Bool) (env : Env) (keyFileExists : Bool) :
    Option CredSource :=
  if appsInitialized then none else some (chooseCred env keyFileExists)

/-- A document key: (collection name, document name). -/
abbrev DocKey := String × String

/-- Modelled from the spec: the Firestore document store itself lives in the
external SDK, not in src; per the spec's persistence boundary it is a finite
map from document locations to documents. -/
abbrev Store := List (DocKey × Value)

/-- Document lookup in the modelled store. -/
def storeGet : Store → DocKey → Option Value
  | [], _ => none
  | (k', v) :: rest, k => if k' = k then some v else storeGet rest k

/-- Modelled from the spec: `document.set(...)` writes the document at its
location. -/
def storeSet : Store → DocKey → Value → Store
  | [], k, v => [(k, v)]
  | (k', v') :: rest, k, v =>
      if k' = k then (k, v) :: rest else (k', v') :: storeSet rest k v

/-- Modelled from the spec: `document.delete()` removes every entry at the
document's location. -/
def storeDelete (st : Store) (k : DocKey) : Store :=
  st.filter (fun p => decide (p.1 ≠ k))

/-- The fixed health-check location `collection("health").document("test")`
(src/config.py:115). -/
def healthCheckLoc : DocKey := ("health", "test")

/-- The connection test of `initialize_firebase` (src/config.py:114-117):
write one throwaway document at the health-check location, then delete it. -/
def healthCheck (st : Store) (ts : Value) : Store :=
  storeDelete (storeSet st healthCheckLoc ts) healthCheckLoc

/-- The observable state of `MarketDataPipeline` after `__init__`
(src/data_pipeline.py:21-30): the exchange handles keyed by exchange id, and
the `_circuit_breakers` mapping. -/
structure PipelineState where
  exchanges : List String
  circuitBreakers : List (String × Bool)
  deriving DecidableEq

/-- `MarketDataPipeline._initialize_exchanges` (src/data_pipeline.py:32-52),
returning the ids whose handles end up in `self.exchanges`. For a recognized
(`getattr` succeeds) and reachable (`load_markets` succeeds) id the handle is
stored; the subsequent `self._circuit_breakers[exchange_id] = False` raises
`AttributeError` — `__init__` creates that attribute only after this method
returns (src/data_pipeline.py:25,29) — which the `except AttributeError`
handler absorbs. An unrecognized id raises `AttributeError` at `getattr` and
is skipped. Modelled from the spec: the handlers after `except
AttributeError` are truncated in src; per the spec an unreachable exchange is
logged and skipped. -/
def initialize_exchanges (recognized reachable : String → Bool)
    (supported : List String) : List String :=
  supported.foldl
    (fun acc ex => if recognized ex && reachable ex then acc ++ [ex] else acc) []

/-- `MarketDataPipeline.__init__` (src/data_pipeline.py:21-30): run
`_initialize_exchanges` on the configured `trading.supported_exchanges` list,
then assign fresh empty dicts for `_rate_limits`, `_circuit_breakers` and
`_last_fetch` (src/data_pipeline.py:28-30). -/
def pipelineInit (recognized reachable : String → Bool)
    (supported : List String) : PipelineState :=
  { exchanges := initialize_exchanges recognized reachable supported,
    circuitBreakers := [] }

/-- Lookup in the circuit-breaker mapping. -/
def breakerLookup : List (String × Bool) → String → Option Bool
  | [], _ => none
  | (k', b) :: rest, k => if k' = k then some b else breakerLookup rest k

/-- The spec's words for `get` (§4.1): walk the nested mapping by the key
sequence, failing the moment any intermediate key is absent or the current
value is not a mapping. Stated as an `Option`-valued walk, to be compared
with the source's `get`. -/
def specWalk : Value → List String → Option Value
  | v, [] => some v
  | .vDict d, k :: ks =>
      match dictLookup d k with
      | some v => specWalk v ks
      | none => none
  | _, _ :: _ => none

theorem dictLookup_dictSet_self (d : Dict) (k : String) (v : Value) :
    dictLookup (dictSet d k v) k = some v := by
  induction d with
  | nil => simp [dictSet, dictLookup]
  | cons p rest ih =>
      obtain ⟨k', v'⟩ := p
      by_cases h : k' = k
      · subst h
        simp [dictSet, dictLookup]
      · simp [dictSet, dictLookup, h, ih]

theorem dictLookup_dictSet_ne (d : Dict) (k k' : String) (v : Value) (h : k ≠ k') :
    dictLookup (dictSet d k v) k' = dictLookup d k' := by
  induction d with
  | nil => simp [dictSet, dictLookup, h]
  | cons p rest ih =>
      obtain ⟨k₀, v₀⟩ := p
      by_cases h0 : k₀ = k
      · subst h0
        simp [dictSet, dictLookup, h]
      · simp only [dictSet, if_neg h0]
        by_cases h1 : k₀ = k'
        · subst h1
          simp [dictLookup]
        · simp [dictLookup, h1, ih]

theorem dictLookup_dictSet_isSome (d : Dict) (k k' : String) (v : Value)
    (h : (dictLookup d k').isSome) : (dictLookup (dictSet d k v) k').isSome := by
  by_cases hk : k = k'
  · subst hk
    simp [dictLookup_dictSet_self]
  · rwa [dictLookup_dictSet_ne d k k' v hk]

theorem dictLookup_none_of_not_mem (d : Dict) (k : String)
    (h : k ∉ d.map Prod.fst) : dictLookup d k = none := by
  induction d with
  | nil => rfl
  | cons p rest ih =>
      obtain ⟨k', v'⟩ := p
      simp only [List.map_cons, List.mem_cons] at h
      push_neg at h
      have hne : k' ≠ k := fun hh => h.1 hh.symm
      simp [dictLookup, hne, ih h.2]

theorem dictMerge_lookup_isSome (b : Dict) (a : Dict) (k : String)
    (h : (dictLookup a k).isSome) : (dictLookup (dictMerge a b) k).isSome := by
  induction b generalizing a with
  | nil => exact h
  | cons p rest ih => exact ih _ (dictLookup_dictSet_isSome a p.1 k p.2 h)

theorem dictMerge_lookup_of_left (b : Dict) (a : Dict) (k : String)
    (h : dictLookup b k = none) : dictLookup (dictMerge a b) k = dictLookup a k := by
  induction b generalizing a with
  | nil => rfl
  | cons p rest ih =>
      obtain ⟨k', v'⟩ := p
      by_cases hk : k' = k
      · subst hk
        simp [dictLookup] at h
      · simp only [dictLookup, if_neg hk] at h
        show dictLookup (dictMerge (dictSet a k' v') rest) k = dictLookup a k
        rw [ih _ h, dictLookup_dictSet_ne a k' k v' hk]

theorem dictMerge_lookup_of_right (b : Dict) (a : Dict) (k : String) (v : Value)
    (hnd : (b.map Prod.fst).Nodup) (h : dictLookup b k = some v) :
    dictLookup (dictMerge a b) k = some v := by
  induction b generalizing a with
  | nil => simp [dictLookup] at h
  | cons p rest ih =>
      obtain ⟨k', v'⟩ := p
      simp only [List.map_cons, List.nodup_cons] at hnd
      by_cases hk : k' = k
      · subst hk
        have hv : v' = v := by simpa [dictLookup] using h
        subst hv
        show dictLookup (dictMerge (dictSet a k' v') rest) k' = some v'
        rw [dictMerge_lookup_of_left rest _ k'
              (dictLookup_none_of_not_mem rest k' hnd.1),
            dictLookup_dictSet_self]
      · simp only [dictLookup, if_neg hk] at h
        exact ih _ hnd.2 h

theorem get_cons_congr (a b : Dict) (k : String) (ks : List String) (dflt : Value)
    (h : dictLookup a k = dictLookup b k) :
    get (.vDict a) (k :: ks) dflt = get (.vDict b) (k :: ks) dflt := by
  simp only [get]
  rw [h]

/-- C9: calling `get` with an empty key sequence returns the entire
configuration mapping itself, never the `default` parameter, whatever the
loaded configuration and whatever the default. -/
theorem c9_get_empty_keys (c : Dict) (dflt : Value) : get (.vDict c) [] dflt = .vDict c := rfl

/-- C5: `get` walks the nested mapping key by key and returns the
caller-supplied default exactly when the walk fails — the moment an
intermediate key is absent or the current value is not a mapping — and the
value reached at the end of the walk otherwise, as captured by the
spec-side walk `specWalk`. -/
theorem c5_get_is_spec_walk :
    ∀ (keys : List String) (c dflt : Value),
      get c keys dflt = (specWalk c keys).getD dflt := by
  intro keys
  induction keys with
  | nil => intro c dflt; cases c <;> rfl
  | cons k ks ih =>
      intro c dflt
      cases c with
      | vDict d =>
          simp only [get, specWalk]
          cases dictLookup d k with
          | none => rfl
          | some v => exact ih v dflt
      | vNull => rfl
      | vNum q => rfl
      | vStr s => rfl
      | vList xs => rfl

theorem storeGet_storeDelete (st : Store) (k : DocKey) :
    storeGet (storeDelete st k) k = none := by
  induction st with
  | nil => rfl
  | cons p rest ih =>
      obtain ⟨k', v'⟩ := p
      by_cases hk : k' = k
      · subst hk
        simpa [storeDelete, storeGet] using ih
      · simpa [storeDelete, storeGet, hk] using ih

/-- C8: the startup liveness check writes one throwaway document to the fixed
health-check location and deletes it again, so after `initialize_firebase`'s
connection test the health-check location holds no document, whatever the
store held before and whatever timestamp was written. -/
theorem c8_health_check_roundtrip (st : Store) (ts : Value) :
    storeGet (healthCheck st ts) healthCheckLoc = none :=
  storeGet_storeDelete _ _

/-- C7: credential acquisition in `initialize_firebase` picks exactly the
first available source in the fixed order inline-environment document,
service-account key file, application-default credentials; a later source is
never consulted when an earlier one is available. -/
theorem c7_cred_priority :
    (∀ (env : Env) (kf : Bool),
        (envLookup env "FIREBASE_SERVICE_ACCOUNT").isSome = true →
        acquireCred false env kf = some .inlineEnv)
    ∧ (∀ env : Env,
        (envLookup env "FIREBASE_SERVICE_ACCOUNT").isSome = false →
        acquireCred false env true = some .fileKey)
    ∧ (∀ env : Env,
        (envLookup env "FIREBASE_SERVICE_ACCOUNT").isSome = false →
        acquireCred false env false = some .applicationDefault) := by
  refine ⟨fun env kf h => ?_, fun env h => ?_, fun env h => ?_⟩ <;>
    simp [acquireCred, chooseCred, h]

/-- Witness for C7 at concrete inputs. -/
theorem c7_cred_priority_witness :
    ((envLookup [("FIREBASE_SERVICE_ACCOUNT", "sa")] "FIREBASE_SERVICE_ACCOUNT").isSome = true)
    ∧ acquireCred false [("FIREBASE_SERVICE_ACCOUNT", "sa")] true = some .inlineEnv
    ∧ ((envLookup [] "FIREBASE_SERVICE_ACCOUNT").isSome = false)
    ∧ acquireCred false [] true = some .fileKey
    ∧ acquireCred false [] false = some .applicationDefault :=
  ⟨rfl, c7_cred_priority.1 [("FIREBASE_SERVICE_ACCOUNT", "sa")] true rfl,
   rfl, c7_cred_priority.2.1 [] rfl, c7_cred_priority.2.2 [] rfl⟩

/-- The C2 scenario: `ccxt` recognizes `binance` and `kraken` but not
`fooexchange`. -/
def c2Recognized (ex : String) : Bool := decide (ex = "binance") || decide (ex = "kraken")

/-- The C2 scenario: only `kraken` is reachable (its `load_markets`
succeeds). -/
def c2Reachable (ex : String) : Bool := decide (ex = "kraken")

/-- The C2 scenario's configured exchange list. -/
def c2Supported : List String := ["fooexchange", "binance", "kraken"]

/-- C2, evaluated at the failing input: after `MarketDataPipeline.__init__`
with one unrecognized, one unreachable and one reachable exchange, the
reachable exchange's handle is present and the other two are absent — but
the circuit-breaker mapping is empty, not closed-flagged: `__init__` assigns
`self._circuit_breakers = {}` only after `_initialize_exchanges` returns
(src/data_pipeline.py:25,29), so the in-loop flag assignment raises
`AttributeError` (absorbed by the unsupported-exchange handler) and any flag
state is absent afterward. -/
theorem c2_breaker_never_closed :
    (pipelineInit c2Recognized c2Reachable c2Supported).exchanges = ["kraken"]
    ∧ (pipelineInit c2Recognized c2Reachable c2Supported).circuitBreakers = []
    ∧ breakerLookup (pipelineInit c2Recognized c2Reachable c2Supported).circuitBreakers
        "kraken" = none :=
  ⟨rfl, rfl, rfl⟩

theorem mem_foldl_exchanges (recognized reachable : String → Bool) :
    ∀ (l acc : List String) (ex : String),
      ex ∈ l.foldl
        (fun acc e => if recognized e && reachable e then acc ++ [e] else acc) acc →
      ex ∈ acc ∨ ex ∈ l := by
  intro l
  induction l with
  | nil => intro acc ex h; exact Or.inl h
  | cons a l ih =>
      intro acc ex h
      rcases ih _ ex h with hacc | hl
      · dsimp only at hacc
        by_cases hc : (recognized a && reachable a) = true
        · rw [if_pos hc] at hacc
          rcases List.mem_append.mp hacc with h1 | h2
          · exact Or.inl h1
          · simp only [List.mem_singleton] at h2
            exact Or.inr (h2 ▸ List.mem_cons_self a l)
        · rw [if_neg hc] at hacc
          exact Or.inl hacc
      · exact Or.inr (List.mem_cons_of_mem a hl)

/-- C10: after pipeline initialization every key of the exchanges mapping is
one of the configured `trading.supported_exchanges` names — no handle exists
for a name that was not configured. -/
theorem c10_exchanges_subset_supported (recognized reachable : String → Bool)
    (supported : List String) (ex : String)
    (h : ex ∈ (pipelineInit recognized reachable supported).exchanges) :
    ex ∈ supported := by
  rcases mem_foldl_exchanges recognized reachable supported [] ex h with h0 | hs
  · cases h0
  · exact hs

/-- Witness for C10 at concrete inputs. -/
theorem c10_exchanges_subset_supported_witness :
    ("kraken" ∈ (pipelineInit c2Recognized c2Reachable c2Supported).exchanges)
    ∧ "kraken" ∈ c2Supported :=
  ⟨by decide, c10_exchanges_subset_supported c2Recognized c2Reachable c2Supported
      "kraken" (by decide)⟩

/-- The C1 scenario's configuration file `{"risk": {"max_drawdown": 0.3}}`. -/
def c1File : Dict := [("risk", .vDict [("max_drawdown", .vNum (3/10))])]

/-- C1 counterexample: with the claim's own config file and no environment
overrides, `get("risk","max_drawdown")` is `0.3` as claimed, but
`get("risk","volatility_threshold")` is NOT the built-in default `0.02`: the
top-level `{**defaults, **file}` merge of `load_config` replaces the whole
`risk` section, so the walk returns the caller-supplied default. -/
theorem c1_counterexample :
    load_config (some (.jdict c1File)) [] = .ok (dictMerge defaults c1File)
    ∧ get (.vDict (dictMerge defaults c1File)) ["risk", "max_drawdown"] .vNull
        = .vNum (3/10)
    ∧ get (.vDict (dictMerge defaults c1File)) ["risk", "volatility_threshold"] .vNull
        ≠ .vNum (1/50) :=
  ⟨rfl, rfl, fun h => Value.noConfusion h⟩

/-- C1 amended: the file is merged over the defaults at top level only. After
`load_config` (no environment overrides, file keys unique as in any parsed
JSON object), a section the file provides is taken wholly from the file, a
section the file omits is the default section, and a key path whose head
exists in neither yields the caller-supplied default. -/
theorem c1_amended_top_level_merge :
    ∀ (fc : Dict) (s : String), (fc.map Prod.fst).Nodup →
      load_config (some (.jdict fc)) [] = .ok (dictMerge defaults fc)
      ∧ (∀ v, dictLookup fc s = some v → dictLookup (dictMerge defaults fc) s = some v)
      ∧ (dictLookup fc s = none →
          dictLookup (dictMerge defaults fc) s = dictLookup defaults s)
      ∧ (dictLookup fc s = none → dictLookup defaults s = none →
          ∀ (ks : List String) (dflt : Value),
            get (.vDict (dictMerge defaults fc)) (s :: ks) dflt = dflt) := by
  intro fc s hnd
  refine ⟨rfl, fun v hv => ?_, fun h => ?_, fun h1 h2 ks dflt => ?_⟩
  · exact dictMerge_lookup_of_right fc defaults s v hnd hv
  · exact dictMerge_lookup_of_left fc defaults s h
  · have hnone : dictLookup (dictMerge defaults fc) s = none := by
      rw [dictMerge_lookup_of_left fc defaults s h1, h2]
    simp [get, hnone]

/-- Witness for C1's amended statement at the scenario's concrete file. -/
theorem c1_amended_top_level_merge_witness :
    dictLookup c1File "risk" = some (.vDict [("max_drawdown", .vNum (3/10))])
    ∧ dictLookup (dictMerge defaults c1File) "risk"
        = some (.vDict [("max_drawdown", .vNum (3/10))])
    ∧ dictLookup c1File "trading" = none
    ∧ dictLookup (dictMerge defaults c1File) "trading" = dictLookup defaults "trading" :=
  ⟨rfl,
   (c1_amended_top_level_merge c1File "risk" (by decide)).2.1 _ rfl,
   rfl,
   (c1_amended_top_level_merge c1File "trading" (by decide)).2.2.1 rfl⟩

theorem except_bind_ok {ε α β : Type} (x : Except ε α) (f : α → Except ε β) (b : β)
    (h : x.bind f = .ok b) : ∃ a, x = .ok a ∧ f a = .ok b := by
  cases x with
  | error e => simp [Except.bind] at h
  | ok a => exact ⟨a, rfl, by simpa [Except.bind] using h⟩

theorem envStep_env_none (env : Env) (c : Dict) (m : EnvMapping)
    (h : envLookup env m.var = none) : envStep env c m = .ok c := by
  simp [envStep, h]

theorem envStep_cast_none (env : Env) (c : Dict) (m : EnvMapping) (raw : String)
    (hv : envLookup env m.var = some raw) (hc : applyCoercion m.cast raw = none) :
    envStep env c m = .ok c := by
  simp [envStep, hv, hc]

theorem envStep_sec_none (env : Env) (c : Dict) (m : EnvMapping) (raw : String) (v : Value)
    (hv : envLookup env m.var = some raw) (hc : applyCoercion m.cast raw = some v)
    (hd : dictLookup c m.sec = none) : envStep env c m = .ok c := by
  simp [envStep, hv, hc, hd]

theorem envStep_sets (env : Env) (c : Dict) (m : EnvMapping) (raw : String) (v : Value)
    (d : Dict) (hv : envLookup env m.var = some raw)
    (hc : applyCoercion m.cast raw = some v)
    (hd : dictLookup c m.sec = some (.vDict d)) :
    envStep env c m = .ok (dictSet c m.sec (.vDict (dictSet d m.key v))) := by
  simp [envStep, hv, hc, hd]

theorem envStep_err (env : Env) (c : Dict) (m : EnvMapping) (raw : String) (v : Value)
    (w : Value) (hv : envLookup env m.var = some raw)
    (hc : applyCoercion m.cast raw = some v)
    (hw : dictLookup c m.sec = some w) (hnd : ∀ d, w ≠ .vDict d) :
    envStep env c m = .error () := by
  cases w with
  | vDict d => exact absurd rfl (hnd d)
  | vNull => simp [envStep, hv, hc, hw]
  | vNum q => simp [envStep, hv, hc, hw]
  | vStr s => simp [envStep, hv, hc, hw]
  | vList xs => simp [envStep, hv, hc, hw]

theorem envStep_ok_inv (env : Env) (c c' : Dict) (m : EnvMapping)
    (h : envStep env c m = .ok c') :
    c' = c ∨ ∃ raw v d, envLookup env m.var = some raw
      ∧ applyCoercion m.cast raw = some v
      ∧ dictLookup c m.sec = some (.vDict d)
      ∧ c' = dictSet c m.sec (.vDict (dictSet d m.key v)) := by
  cases he : envLookup env m.var with
  | none =>
      rw [envStep_env_none env c m he] at h
      injection h with h'
      exact Or.inl h'.symm
  | some raw =>
      cases hc : applyCoercion m.cast raw with
      | none =>
          rw [envStep_cast_none env c m raw he hc] at h
          injection h with h'
          exact Or.inl h'.symm
      | some v =>
          cases hd : dictLookup c m.sec with
          | none =>
              rw [envStep_sec_none env c m raw v he hc hd] at h
              injection h with h'
              exact Or.inl h'.symm
          | some w =>
              cases w with
              | vDict d =>
                  rw [envStep_sets env c m raw v d he hc hd] at h
                  injection h with h'
                  exact Or.inr ⟨raw, v, d, rfl, hc, rfl, h'.symm⟩
              | vNull =>
                  rw [envStep_err env c m raw v _ he hc hd
                    (fun d hh => Value.noConfusion hh)] at h
                  exact Except.noConfusion h
              | vNum q =>
                  rw [envStep_err env c m raw v _ he hc hd
                    (fun d hh => Value.noConfusion hh)] at h
                  exact Except.noConfusion h
              | vStr s =>
                  rw [envStep_err env c m raw v _ he hc hd
                    (fun d hh => Value.noConfusion hh)] at h
                  exact Except.noConfusion h
              | vList xs =>
                  rw [envStep_err env c m raw v _ he hc hd
                    (fun d hh => Value.noConfusion hh)] at h
                  exact Except.noConfusion h

theorem envStep_ok_lookup_ne (env : Env) (c c' : Dict) (m : EnvMapping) (s : String)
    (h : envStep env c m = .ok c') (hs : m.sec ≠ s) :
    dictLookup c' s = dictLookup c s := by
  rcases envStep_ok_inv env c c' m h with rfl | ⟨raw, v, d, _, _, _, rfl⟩
  · rfl
  · exact dictLookup_dictSet_ne c m.sec s _ hs

theorem overrideFromEnv_ok_steps (env : Env) (c cfg : Dict)
    (h : overrideFromEnv env c = .ok cfg) :
    ∃ c1 c2, envStep env c em1 = .ok c1 ∧ envStep env c1 em2 = .ok c2
      ∧ envStep env c2 em3 = .ok cfg := by
  simp only [overrideFromEnv, envMappings, List.foldl] at h
  obtain ⟨c2, hx, h3⟩ := except_bind_ok _ _ _ h
  obtain ⟨c1, hy, h2⟩ := except_bind_ok _ _ _ hx
  obtain ⟨c0, hz, h1⟩ := except_bind_ok _ _ _ hy
  injection hz with hz'
  subst hz'
  exact ⟨c1, c2, h1, h2, h3⟩

theorem parseStage_ok_lookup_isSome (file : Option FileDoc) (c0 : Dict) (s : String)
    (h : parseStage file = .ok c0) (hs : (dictLookup defaults s).isSome) :
    (dictLookup c0 s).isSome := by
  cases file with
  | none =>
      injection h with h'
      subst h'
      exact hs
  | some fd =>
      cases fd with
      | invalid => exact Except.noConfusion h
      | jdict d =>
          injection h with h'
          subst h'
          exact dictMerge_lookup_isSome d defaults s hs
      | jother v => exact Except.noConfusion h

theorem load_config_ok_inv (file : Option FileDoc) (env : Env) (cfg : Dict)
    (h : load_config file env = .ok cfg) :
    ∃ c0, parseStage file = .ok c0 ∧ overrideFromEnv env c0 = .ok cfg := by
  unfold load_config at h
  cases hp : parseStage file with
  | error e =>
      rw [hp] at h
      exact Except.noConfusion h
  | ok c0 =>
      rw [hp] at h
      dsimp only at h
      cases ho : overrideFromEnv env c0 with
      | error e =>
          rw [ho] at h
          exact Except.noConfusion h
      | ok c2 =>
          rw [ho] at h
          injection h with h'
          subst h'
          exact ⟨c0, rfl, ho⟩

/-- C3: for every recognized environment variable set to a value its coercion
function accepts, after a successful `load_config` the corresponding nested
configuration value equals the coerced environment value, whatever the
defaults or the config file put at that key. -/
theorem c3_env_override_wins :
    ∀ m ∈ envMappings, ∀ (file : Option FileDoc) (env : Env) (raw : String)
      (v : Value) (cfg : Dict) (dflt : Value),
      envLookup env m.var = some raw →
      applyCoercion m.cast raw = some v →
      load_config file env = .ok cfg →
      get (.vDict cfg) [m.sec, m.key] dflt = v := by
  intro m hm file env raw v cfg dflt hv hc hload
  obtain ⟨c0, hp, ho⟩ := load_config_ok_inv file env cfg hload
  obtain ⟨c1, c2, h1, h2, h3⟩ := overrideFromEnv_ok_steps env c0 cfg ho
  simp only [envMappings, List.mem_cons, List.mem_singleton] at hm
  rcases hm with rfl | rfl | rfl | hnil
  · -- em1: the write happens at step 1; steps 2 and 3 leave "trading" alone
    have hd0 : (dictLookup c0 em1.sec).isSome :=
      parseStage_ok_lookup_isSome file c0 em1.sec hp (by decide)
    cases hd0c : dictLookup c0 em1.sec with
    | none => rw [hd0c] at hd0; exact absurd hd0 (by simp)
    | some w =>
        cases w with
        | vDict d =>
            rw [envStep_sets env c0 em1 raw v d hv hc hd0c] at h1
            injection h1 with h1'
            subst h1'
            have e2 : dictLookup c2 em1.sec
                = dictLookup (dictSet c0 em1.sec (.vDict (dictSet d em1.key v))) em1.sec :=
              envStep_ok_lookup_ne env _ c2 em2 em1.sec h2 (by decide)
            have e3 : dictLookup cfg em1.sec = dictLookup c2 em1.sec :=
              envStep_ok_lookup_ne env c2 cfg em3 em1.sec h3 (by decide)
            have efin : dictLookup cfg em1.sec = some (.vDict (dictSet d em1.key v)) := by
              rw [e3, e2, dictLookup_dictSet_self]
            simp only [get, efin, dictLookup_dictSet_self]
        | vNull =>
            rw [envStep_err env c0 em1 raw v _ hv hc hd0c
              (fun dd hh => Value.noConfusion hh)] at h1
            exact Except.noConfusion h1
        | vNum q =>
            rw [envStep_err env c0 em1 raw v _ hv hc hd0c
              (fun dd hh => Value.noConfusion hh)] at h1
            exact Except.noConfusion h1
        | vStr s =>
            rw [envStep_err env c0 em1 raw v _ hv hc hd0c
              (fun dd hh => Value.noConfusion hh)] at h1
            exact Except.noConfusion h1
        | vList xs =>
            rw [envStep_err env c0 em1 raw v _ hv hc hd0c
              (fun dd hh => Value.noConfusion hh)] at h1
            exact Except.noConfusion h1
  · -- em2: step 1 leaves "risk" alone, the write happens at step 2, step 3
    -- leaves it alone again
    have e1 : dictLookup c1 em2.sec = dictLookup c0 em2.sec :=
      envStep_ok_lookup_ne env c0 c1 em1 em2.sec h1 (by decide)
    have hd1 : (dictLookup c1 em2.sec).isSome := by
      rw [e1]
      exact parseStage_ok_lookup_isSome file c0 em2.sec hp (by decide)
    cases hd1c : dictLookup c1 em2.sec with
    | none => rw [hd1c] at hd1; exact absurd hd1 (by simp)
    | some w =>
        cases w with
        | vDict d =>
            rw [envStep_sets env c1 em2 raw v d hv hc hd1c] at h2
            injection h2 with h2'
            subst h2'
            have e3 : dictLookup cfg em2.sec
                = dictLookup (dictSet c1 em2.sec (.vDict (dictSet d em2.key v))) em2.sec :=
              envStep_ok_lookup_ne env _ cfg em3 em2.sec h3 (by decide)
            have efin : dictLookup cfg em2.sec = some (.vDict (dictSet d em2.key v)) := by
              rw [e3, dictLookup_dictSet_self]
            simp only [get, efin, dictLookup_dictSet_self]
        | vNull =>
            rw [envStep_err env c1 em2 raw v _ hv hc hd1c
              (fun dd hh => Value.noConfusion hh)] at h2
            exact Except.noConfusion h2
        | vNum q =>
            rw [envStep_err env c1 em2 raw v _ hv hc hd1c
              (fun dd hh => Value.noConfusion hh)] at h2
            exact Except.noConfusion h2
        | vStr s =>
            rw [envStep_err env c1 em2 raw v _ hv hc hd1c
              (fun dd hh => Value.noConfusion hh)] at h2
            exact Except.noConfusion h2
        | vList xs =>
            rw [envStep_err env c1 em2 raw v _ hv hc hd1c
              (fun dd hh => Value.noConfusion hh)] at h2
            exact Except.noConfusion h2
  · -- em3: steps 1 and 2 leave "firebase" alone, the write happens at step 3
    have e1 : dictLookup c1 em3.sec = dictLookup c0 em3.sec :=
      envStep_ok_lookup_ne env c0 c1 em1 em3.sec h1 (by decide)
    have e2 : dictLookup c2 em3.sec = dictLookup c1 em3.sec :=
      envStep_ok_lookup_ne env c1 c2 em2 em3.sec h2 (by decide)
    have hd2 : (dictLookup c2 em3.sec).isSome := by
      rw [e2, e1]
      exact parseStage_ok_lookup_isSome file c0 em3.sec hp (by decide)
    cases hd2c : dictLookup c2 em3.sec with
    | none => rw [hd2c] at hd2; exact absurd hd2 (by simp)
    | some w =>
        cases w with
        | vDict d =>
            rw [envStep_sets env c2 em3 raw v d hv hc hd2c] at h3
            injection h3 with h3'
            subst h3'
            have efin : dictLookup (dictSet c2 em3.sec (.vDict (dictSet d em3.key v))) em3.sec
                = some (.vDict (dictSet d em3.key v)) := dictLookup_dictSet_self _ _ _
            simp only [get, efin, dictLookup_dictSet_self]
        | vNull =>
            rw [envStep_err env c2 em3 raw v _ hv hc hd2c
              (fun dd hh => Value.noConfusion hh)] at h3
            exact Except.noConfusion h3
        | vNum q =>
            rw [envStep_err env c2 em3 raw v _ hv hc hd2c
              (fun dd hh => Value.noConfusion hh)] at h3
            exact Except.noConfusion h3
        | vStr s =>
            rw [envStep_err env c2 em3 raw v _ hv hc hd2c
              (fun dd hh => Value.noConfusion hh)] at h3
            exact Except.noConfusion h3
        | vList xs =>
            rw [envStep_err env c2 em3 raw v _ hv hc hd2c
              (fun dd hh => Value.noConfusion hh)] at h3
            exact Except.noConfusion h3
  · cases hnil

/-- The C3 witness environment. -/
def c3wEnv : Env := [("AHYTE_MAX_DRAWDOWN", "25")]

/-- The configuration produced by `load_config` under `c3wEnv`. -/
def c3wCfg : Dict :=
  dictSet defaults "risk" (.vDict (dictSet riskDefaults "max_drawdown" (.vNum 25)))

/-- Witness for C3 at concrete inputs. -/
theorem c3_env_override_wins_witness :
    envLookup c3wEnv "AHYTE_MAX_DRAWDOWN" = some "25"
    ∧ applyCoercion Coercion.toFloat "25" = some (.vNum 25)
    ∧ load_config none c3wEnv = .ok c3wCfg
    ∧ get (.vDict c3wCfg) ["risk", "max_drawdown"] .vNull = .vNum 25 :=
  ⟨rfl, rfl, rfl,
   c3_env_override_wins em2 (by decide) none c3wEnv "25" (.vNum 25) c3wCfg .vNull
     rfl rfl rfl⟩

theorem envStep_env_congr (env env' : Env) (c : Dict) (m : EnvMapping)
    (h : envLookup env m.var = envLookup env' m.var) :
    envStep env c m = envStep env' c m := by
  unfold envStep
  rw [h]

/-- C4: a recognized environment variable whose value fails coercion leaves
the corresponding configuration value exactly as the pre-override stage (file
merged over defaults) produced it; and environment variables outside the
recognized table never affect the result of `load_config`. -/
theorem c4_failed_coercion_skipped :
    (∀ m ∈ envMappings, ∀ (file : Option FileDoc) (env : Env) (raw : String)
        (cfg c0 : Dict) (dflt : Value),
        envLookup env m.var = some raw →
        applyCoercion m.cast raw = none →
        load_config file env = .ok cfg →
        parseStage file = .ok c0 →
        get (.vDict cfg) [m.sec, m.key] dflt = get (.vDict c0) [m.sec, m.key] dflt)
    ∧ (∀ (file : Option FileDoc) (env env' : Env),
        (∀ m ∈ envMappings, envLookup env m.var = envLookup env' m.var) →
        load_config file env = load_config file env') := by
  constructor
  · intro m hm file env raw cfg c0 dflt hv hc hload hp0
    obtain ⟨c0', hp, ho⟩ := load_config_ok_inv file env cfg hload
    rw [hp0] at hp
    injection hp with hp'
    subst hp'
    obtain ⟨c1, c2, h1, h2, h3⟩ := overrideFromEnv_ok_steps env c0 cfg ho
    simp only [envMappings, List.mem_cons, List.mem_singleton] at hm
    rcases hm with rfl | rfl | rfl | hnil
    · -- em1 is skipped at step 1; steps 2 and 3 leave "trading" alone
      rw [envStep_cast_none env c0 em1 raw hv hc] at h1
      injection h1 with h1'
      subst h1'
      have e2 : dictLookup c2 em1.sec = dictLookup c0 em1.sec :=
        envStep_ok_lookup_ne env c0 c2 em2 em1.sec h2 (by decide)
      have e3 : dictLookup cfg em1.sec = dictLookup c2 em1.sec :=
        envStep_ok_lookup_ne env c2 cfg em3 em1.sec h3 (by decide)
      exact get_cons_congr cfg c0 em1.sec [em1.key] dflt (by rw [e3, e2])
    · -- em2 is skipped at step 2; steps 1 and 3 leave "risk" alone
      have e1 : dictLookup c1 em2.sec = dictLookup c0 em2.sec :=
        envStep_ok_lookup_ne env c0 c1 em1 em2.sec h1 (by decide)
      rw [envStep_cast_none env c1 em2 raw hv hc] at h2
      injection h2 with h2'
      subst h2'
      have e3 : dictLookup cfg em2.sec = dictLookup c1 em2.sec :=
        envStep_ok_lookup_ne env c1 cfg em3 em2.sec h3 (by decide)
      exact get_cons_congr cfg c0 em2.sec [em2.key] dflt (by rw [e3, e1])
    · -- em3 is skipped at step 3; steps 1 and 2 leave "firebase" alone
      have e1 : dictLookup c1 em3.sec = dictLookup c0 em3.sec :=
        envStep_ok_lookup_ne env c0 c1 em1 em3.sec h1 (by decide)
      have e2 : dictLookup c2 em3.sec = dictLookup c1 em3.sec :=
        envStep_ok_lookup_ne env c1 c2 em2 em3.sec h2 (by decide)
      rw [envStep_cast_none env c2 em3 raw hv hc] at h3
      injection h3 with h3'
      subst h3'
      exact get_cons_congr c2 c0 em3.sec [em3.key] dflt (by rw [e2, e1])
    · cases hnil
  · intro file env env' h
    have g1 : (fun cc => envStep env cc em1) = fun cc => envStep env' cc em1 :=
      funext fun cc => envStep_env_congr env env' cc em1 (h em1 (by decide))
    have g2 : (fun cc => envStep env cc em2) = fun cc => envStep env' cc em2 :=
      funext fun cc => envStep_env_congr env env' cc em2 (h em2 (by decide))
    have g3 : (fun cc => envStep env cc em3) = fun cc => envStep env' cc em3 :=
      funext fun cc => envStep_env_congr env env' cc em3 (h em3 (by decide))
    have hov : ∀ c, overrideFromEnv env c = overrideFromEnv env' c := by
      intro c
      simp only [overrideFromEnv, envMappings, List.foldl]
      rw [g1, g2, g3]
    unfold load_config
    cases hp : parseStage file with
    | error e => rfl
    | ok c0 =>
        dsimp only
        rw [hov c0]

/-- The C4 witness environment: the recognized variable carries a value
`float` rejects. -/
def c4wEnv : Env := [("AHYTE_MAX_DRAWDOWN", "oops")]

/-- Witness for C4 at concrete inputs. -/
theorem c4_failed_coercion_skipped_witness :
    envLookup c4wEnv "AHYTE_MAX_DRAWDOWN" = some "oops"
    ∧ applyCoercion Coercion.toFloat "oops" = none
    ∧ load_config none c4wEnv = .ok defaults
    ∧ get (.vDict defaults) ["risk", "max_drawdown"] .vNull
        = get (.vDict defaults) ["risk", "max_drawdown"] .vNull
    ∧ load_config none [("SOME_OTHER_VAR", "1")] = load_config none [] :=
  ⟨rfl, rfl, rfl,
   c4_failed_coercion_skipped.1 em2 (by decide) none c4wEnv "oops" defaults defaults
     .vNull rfl rfl rfl rfl,
   c4_failed_coercion_skipped.2 none [("SOME_OTHER_VAR", "1")] [] (by decide)⟩

theorem envStep_preserves_vdict (env : Env) (c c' : Dict) (m : EnvMapping) (s : String)
    (h : envStep env c m = .ok c') (hd : ∃ d, dictLookup c s = some (.vDict d)) :
    ∃ d, dictLookup c' s = some (.vDict d) := by
  rcases envStep_ok_inv env c c' m h with rfl | ⟨raw, v, d0, _, _, _, rfl⟩
  · exact hd
  · by_cases hs : m.sec = s
    · subst hs
      exact ⟨dictSet d0 m.key v, dictLookup_dictSet_self c m.sec _⟩
    · obtain ⟨d, hdd⟩ := hd
      exact ⟨d, by rw [dictLookup_dictSet_ne c m.sec s _ hs]; exact hdd⟩

theorem envStep_ok_of_vdict (env : Env) (c : Dict) (m : EnvMapping)
    (hd : ∃ d, dictLookup c m.sec = some (.vDict d)) :
    ∃ c', envStep env c m = .ok c' := by
  obtain ⟨d, hdd⟩ := hd
  cases he : envLookup env m.var with
  | none => exact ⟨c, envStep_env_none env c m he⟩
  | some raw =>
      cases hc : applyCoercion m.cast raw with
      | none => exact ⟨c, envStep_cast_none env c m raw he hc⟩
      | some v => exact ⟨_, envStep_sets env c m raw v d he hc hdd⟩

theorem overrideFromEnv_fold_ok (env : Env) :
    ∀ (ms : List EnvMapping) (c : Dict),
      (∀ m ∈ ms, ∃ d, dictLookup c m.sec = some (.vDict d)) →
      ∃ c', ms.foldl (fun acc m => acc.bind (fun cc => envStep env cc m))
        (Except.ok c : Except Unit Dict) = .ok c' := by
  intro ms
  induction ms with
  | nil => intro c h; exact ⟨c, rfl⟩
  | cons m ms ih =>
      intro c h
      obtain ⟨c1, hc1⟩ := envStep_ok_of_vdict env c m (h m (List.mem_cons_self m ms))
      have hall : ∀ m' ∈ ms, ∃ d, dictLookup c1 m'.sec = some (.vDict d) :=
        fun m' hm' =>
          envStep_preserves_vdict env c c1 m m'.sec hc1 (h m' (List.mem_cons_of_mem m hm'))
      obtain ⟨c', hc'⟩ := ih c1 hall
      refine ⟨c', ?_⟩
      rw [List.foldl_cons]
      have hb : ((Except.ok c).bind fun cc => envStep env cc m) = Except.ok c1 := by
        simpa [Except.bind] using hc1
      rw [hb]
      exact hc'

/-- C6: `load_config` propagates a parse error exactly when the given config
file exists but is malformed; with no file (missing or omitted path) the
pre-override configuration is the built-in defaults and the load always
succeeds. -/
theorem c6_parse_error_iff :
    (∀ (file : Option FileDoc) (env : Env),
        load_config file env = .error .parseError ↔ file = some .invalid)
    ∧ (∀ env : Env, parseStage none = .ok defaults
        ∧ ∃ c, load_config none env = .ok c) := by
  constructor
  · intro file env
    constructor
    · intro h
      cases file with
      | none =>
          exfalso
          unfold load_config at h
          dsimp only [parseStage] at h
          cases ho : overrideFromEnv env defaults with
          | error e =>
              rw [ho] at h
              injection h with h'
              exact LoadError.noConfusion h'
          | ok c2 =>
              rw [ho] at h
              exact Except.noConfusion h
      | some fd =>
          cases fd with
          | invalid => rfl
          | jdict d =>
              exfalso
              unfold load_config at h
              dsimp only [parseStage] at h
              cases ho : overrideFromEnv env (dictMerge defaults d) with
              | error e =>
                  rw [ho] at h
                  injection h with h'
                  exact LoadError.noConfusion h'
              | ok c2 =>
                  rw [ho] at h
                  exact Except.noConfusion h
          | jother v =>
              exfalso
              unfold load_config at h
              dsimp only [parseStage] at h
              injection h with h'
              exact LoadError.noConfusion h'
    · intro h
      subst h
      rfl
  · intro env
    refine ⟨rfl, ?_⟩
    have hsecs : ∀ m ∈ envMappings, ∃ d, dictLookup defaults m.sec = some (.vDict d) := by
      intro m hm
      simp only [envMappings, List.mem_cons, List.mem_singleton] at hm
      rcases hm with rfl | rfl | rfl | hnil
      · exact ⟨tradingDefaults, rfl⟩
      · exact ⟨riskDefaults, rfl⟩
      · exact ⟨firebaseDefaults, rfl⟩
      · cases hnil
    obtain ⟨c', hc'⟩ := overrideFromEnv_fold_ok env envMappings defaults hsecs
    have ho : overrideFromEnv env defaults = .ok c' := hc'
    refine ⟨c', ?_⟩
    unfold load_config
    dsimp only [parseStage]
    rw [ho]

/-- Witness for C6 at concrete inputs. -/
theorem c6_parse_error_iff_witness :
    load_config (some .invalid) [] = .error .parseError
    ∧ parseStage none = .ok defaults
    ∧ ∃ c, load_config none [("AHYTE_MAX_DRAWDOWN", "nonsense")] = .ok c :=
  ⟨(c6_parse_error_iff.1 (some .invalid) []).mpr rfl,
   (c6_parse_error_iff.2 []).1,
   (c6_parse_error_iff.2 [("AHYTE_MAX_DRAWDOWN", "nonsense")]).2⟩

end AHYTE
